import Mathlib

/-!
Shallow embedding of the eBPF process-lifecycle tracers of `system-agent`:
the execve correlation pipeline (`src/ebpf/src/execsnoop.bpf.c` with its
shared types in `src/ebpf/include/execsnoop_types.h`) and the secondary
lifecycle collector (`src/ebpf/src/process_collector.bpf.c`).

Kernel-side maps are modelled as explicit state: the `execs` hash map as a
function from pid to an optional in-flight event, the ring buffer as the
list of submitted records, and the statistics hash map as a function from
pid to an optional 64-bit count.  Fallible kernel helpers (per-cpu heap
lookup, map insert at capacity, ring-buffer reserve) are modelled by
boolean success parameters of each probe invocation, matching the
source's `if (!...) return 0;` checks.
-/

namespace Execsnoop

/-- Constant `TASK_COMM_LEN` from execsnoop_types.h. -/
def TASK_COMM_LEN : Nat := 16

/-- Constant `ARGSIZE` from execsnoop_types.h: maximum bytes read per argument. -/
def ARGSIZE : Nat := 128

/-- Constant `TOTAL_MAX_ARGS` from execsnoop_types.h. -/
def TOTAL_MAX_ARGS : Nat := 60

/-- Constant `FULL_MAX_ARGS_ARR = TOTAL_MAX_ARGS * ARGSIZE`: capacity of the args trailer. -/
def FULL_MAX_ARGS_ARR : Nat := TOTAL_MAX_ARGS * ARGSIZE

/-- Constant `DEFAULT_MAXARGS` from execsnoop.bpf.c: static bound of the unrolled loop. -/
def DEFAULT_MAXARGS : Nat := 20

/-- One slot of the user-space `argv` pointer array, as observed by the probe:
the pointer is NULL (or the pointer read itself faults, leaving `argp` NULL),
the pointer is non-null but the string read faults, or the pointer leads to a
readable string whose bytes before the NUL terminator are `s`. -/
inductive ArgSlot where
  | nullPtr
  | badStr
  | str (s : List Nat)
deriving DecidableEq

/-- Model of `bpf_probe_read_user_str(dst, size, src)` on a readable string
whose bytes before the terminator are `s`: if the string and its terminator
fit in `size`, it copies `s ++ [0]` and returns `s.length + 1`; otherwise it
copies `size - 1` bytes plus a forced terminator and returns `size`.
The result is the pair (bytes written, return value). -/
def probe_read_user_str (size : Nat) (s : List Nat) : List Nat × Int :=
  if s.length + 1 ≤ size then (s ++ [0], ((s.length + 1 : Nat) : Int))
  else (s.take (size - 1) ++ [0], (size : Int))

/-- The bounded string read issued by the loop body for a non-null slot:
a faulting read returns a negative code (-EFAULT) and writes nothing usable. -/
def readArgStr (slot : ArgSlot) (size : Nat) : List Nat × Int :=
  match slot with
  | ArgSlot.str s => probe_read_user_str size s
  | _ => ([], -14)

/-- State of the argument scan: `args_count` and `args_size` mirror the event
header fields, `args` is the trailer content written so far (exactly
`args_size` bytes), and `iters` counts loop-body entries (the source's `i`,
instrumented to state the static iteration bound). -/
structure ScanResult where
  args_count : Nat
  args_size : Nat
  args : List Nat
  iters : Nat
deriving DecidableEq

/-- The argument-scan loop of `tracepoint__syscalls__sys_enter_execve`
(execsnoop.bpf.c lines 71-100), iterating `i` from its current value while
`i < DEFAULT_MAXARGS && i < max_args`: read the slot pointer (stop on NULL),
compute remaining trailer space (stop when none), clamp the read size to
`min(remaining, ARGSIZE)`, issue the bounded string read (stop on `ret ≤ 0`),
re-check that the cumulative size still fits, then accept the argument. -/
def scanGo (max_args : Int) (argv : Nat → ArgSlot) (i : Nat) (st : ScanResult) :
    ScanResult :=
  if h : i < DEFAULT_MAXARGS ∧ (i : Int) < max_args then
    let st1 : ScanResult := { st with iters := st.iters + 1 }
    match argv i with
    | ArgSlot.nullPtr => st1
    | slot =>
      let remaining : Nat := FULL_MAX_ARGS_ARR - st1.args_size
      if remaining = 0 then st1
      else
        let read_size : Nat := min remaining ARGSIZE
        let r := readArgStr slot read_size
        if 0 < r.2 then
          if FULL_MAX_ARGS_ARR < st1.args_size + r.2.toNat then st1
          else
            scanGo max_args argv (i + 1)
              { args_count := st1.args_count + 1
                args_size := st1.args_size + r.2.toNat
                args := st1.args ++ r.1
                iters := st1.iters }
        else st1
  else st
termination_by DEFAULT_MAXARGS - i
decreasing_by simp_wf; omega

/-- The full argument scan, started at index 0 on a zero-initialised event. -/
def scanArgs (max_args : Int) (argv : Nat → ArgSlot) : ScanResult :=
  scanGo max_args argv 0 { args_count := 0, args_size := 0, args := [], iters := 0 }

/-- The in-flight / emitted event (`struct event` = `struct execsnoop_event`
header plus the trailer).  `args` holds the meaningful trailer bytes
(`args_size` of them); `comm` is 16 bytes, written only at exit time. -/
structure Event where
  pid : Int
  ppid : Int
  uid : Nat
  retval : Int
  args_count : Nat
  args_size : Nat
  comm : List Nat
  args : List Nat
deriving DecidableEq

/-- Kernel context observed by the enter probe: current pid, parent tgid,
the two halves of `bpf_get_current_uid_gid()` (the source keeps only the
low half, the uid), and the user-space argv array. -/
structure EnterCtx where
  pid : Int
  ppid : Int
  uid : Nat
  gid : Nat
  argv : Nat → ArgSlot

/-- Kernel context observed by the exit probe: current pid, the syscall
return value `ctx->ret`, and the current task name read by
`bpf_get_current_comm`. -/
structure ExitCtx where
  pid : Int
  ret : Int
  comm : List Nat

/-- Shared state of the execsnoop pipeline: the `execs` correlation hash map
(pid → in-flight event) and the `events` ring buffer as the list of
submitted records in submission order. -/
structure SysState where
  execs : Int → Option Event
  ring : List Event

/-- Model of `bpf_map_update_elem(&execs, &pid, event, BPF_ANY)`: overwrite-or-insert. -/
def execsInsert (m : Int → Option Event) (k : Int) (v : Event) : Int → Option Event :=
  fun k2 => if k2 = k then some v else m k2

/-- Model of `bpf_map_delete_elem(&execs, &pid)`. -/
def execsDelete (m : Int → Option Event) (k : Int) : Int → Option Event :=
  fun k2 => if k2 = k then none else m k2

/-- Handler `tracepoint__syscalls__sys_enter_execve` (execsnoop.bpf.c lines 42-105):
obtain the per-cpu scratch slot (`heapOk`), fill the header fields, run the
bounded argument scan, then insert the provisional event into `execs` keyed
by pid (`insertOk` models a hash-map insert rejected at capacity; the source
ignores the return code either way).  `comm` is left unset by the source at
enter time and never read from the map, modelled here as `[]`. -/
def sys_enter_execve (max_args : Int) (ctx : EnterCtx) (heapOk insertOk : Bool)
    (st : SysState) : SysState :=
  if heapOk then
    let sc := scanArgs max_args ctx.argv
    let ev : Event :=
      { pid := ctx.pid, ppid := ctx.ppid, uid := ctx.uid, retval := 0
        args_count := sc.args_count, args_size := sc.args_size
        comm := [], args := sc.args }
    if insertOk then { st with execs := execsInsert st.execs ctx.pid ev } else st
  else st

/-- Handler `tracepoint__syscalls__sys_exit_execve` (execsnoop.bpf.c lines 108-146):
look up the correlation entry (no-op on miss), set `retval` in place, reserve
a maximum-size ring slot (`reserveOk`; on failure delete the entry and
return), copy header fields, read `comm` at exit time, copy the trailer when
`0 < args_size ≤ FULL_MAX_ARGS_ARR` (otherwise the slot's trailer bytes stay
unspecified, modelled as `[]`), submit, and delete the entry. -/
def sys_exit_execve (ctx : ExitCtx) (reserveOk : Bool) (st : SysState) : SysState :=
  match st.execs ctx.pid with
  | none => st
  | some ev0 =>
    let ev : Event := { ev0 with retval := ctx.ret }
    if reserveOk then
      let e : Event :=
        { ev with
          comm := ctx.comm
          args :=
            if 0 < ev.args_size ∧ ev.args_size ≤ FULL_MAX_ARGS_ARR then ev.args
            else [] }
      { execs := execsDelete st.execs ctx.pid, ring := st.ring ++ [e] }
    else { st with execs := execsDelete st.execs ctx.pid }

end Execsnoop

namespace ProcCollector

/-- Record `struct process_event` from process_collector.bpf.c (lines 13-22). -/
structure ProcessEvent where
  pid : Nat
  ppid : Nat
  uid : Nat
  gid : Nat
  comm : List Nat
  timestamp : Nat
  exit_code : Nat
  event_type : Nat
deriving DecidableEq

/-- Attributes of the current task as read through the CO-RE helpers:
`real_parent` and `real_cred` may be NULL pointers, in which case the
corresponding event fields are left unwritten by `populate_event_common`. -/
structure TaskCtx where
  pid : Nat
  comm : List Nat
  parent_pid : Option Nat
  cred : Option (Nat × Nat)
  exit_code : Nat
  time : Nat

/-- State of the secondary pipeline: the `process_events` ring buffer (list of
submitted records), the `process_stats` hash map (pid → 64-bit count), and an
instrumentation counter of how many reserved slots were discarded. -/
structure PCState where
  ring : List ProcessEvent
  stats : Nat → Option Nat
  discards : Nat

/-- Helper `update_process_stats` (process_collector.bpf.c lines 31-39): look the pid
up; if present, atomically add 1 (64-bit wraparound); otherwise insert the
initial count 1 (`statsOk` models a hash-map insert rejected at capacity; the
source ignores the return code). -/
def update_process_stats (statsOk : Bool) (stats : Nat → Option Nat) (pid : Nat) :
    Nat → Option Nat :=
  match stats pid with
  | some c => fun k => if k = pid then some ((c + 1) % 2 ^ 64) else stats k
  | none =>
    if statsOk then fun k => if k = pid then some 1 else stats k
    else stats

/-- Helper `populate_event_common` (process_collector.bpf.c lines 42-62): writes pid,
comm and timestamp, writes ppid only when `real_parent` is non-null and the
credentials only when `real_cred` is non-null (otherwise those fields keep the
reserved slot's prior content `init`), and always returns 0. -/
def populate_event_common (init : ProcessEvent) (task : TaskCtx) : ProcessEvent × Int :=
  let e1 : ProcessEvent := { init with pid := task.pid, comm := task.comm }
  let e2 : ProcessEvent :=
    match task.parent_pid with
    | some pp => { e1 with ppid := pp }
    | none => e1
  let e3 : ProcessEvent :=
    match task.cred with
    | some ug => { e2 with uid := ug.1, gid := ug.2 }
    | none => e2
  ({ e3 with timestamp := task.time }, 0)

/-- Handler `trace_process_fork` (process_collector.bpf.c lines 66-94): reserve a slot
(`reserveOk`, stale content `init`), populate common fields from the current
task (the parent), discard if population failed, set event_type 0 and
exit_code 0, bump the stats counter for the event's pid, submit. -/
def trace_process_fork (task : TaskCtx) (init : ProcessEvent) (reserveOk statsOk : Bool)
    (st : PCState) : PCState :=
  if reserveOk then
    let pr := populate_event_common init task
    if pr.2 < 0 then { st with discards := st.discards + 1 }
    else
      let ev : ProcessEvent := { pr.1 with event_type := 0, exit_code := 0 }
      { ring := st.ring ++ [ev]
        stats := update_process_stats statsOk st.stats ev.pid
        discards := st.discards }
  else st

/-- Handler `trace_process_exec` (process_collector.bpf.c lines 98-126): as fork but
with event_type 1. -/
def trace_process_exec (task : TaskCtx) (init : ProcessEvent) (reserveOk statsOk : Bool)
    (st : PCState) : PCState :=
  if reserveOk then
    let pr := populate_event_common init task
    if pr.2 < 0 then { st with discards := st.discards + 1 }
    else
      let ev : ProcessEvent := { pr.1 with event_type := 1, exit_code := 0 }
      { ring := st.ring ++ [ev]
        stats := update_process_stats statsOk st.stats ev.pid
        discards := st.discards }
  else st

/-- Handler `trace_process_exit` (process_collector.bpf.c lines 130-160): as fork but
with event_type 2 and the exit code read from the task. -/
def trace_process_exit (task : TaskCtx) (init : ProcessEvent) (reserveOk statsOk : Bool)
    (st : PCState) : PCState :=
  if reserveOk then
    let pr := populate_event_common init task
    if pr.2 < 0 then { st with discards := st.discards + 1 }
    else
      let ev : ProcessEvent :=
        { pr.1 with event_type := 2, exit_code := task.exit_code }
      { ring := st.ring ++ [ev]
        stats := update_process_stats statsOk st.stats ev.pid
        discards := st.discards }
  else st

/-- One probe invocation of the secondary pipeline, with its kernel context
and helper outcomes. -/
inductive PCStep where
  | fork (task : TaskCtx) (init : ProcessEvent) (reserveOk statsOk : Bool)
  | exec (task : TaskCtx) (init : ProcessEvent) (reserveOk statsOk : Bool)
  | exit (task : TaskCtx) (init : ProcessEvent) (reserveOk statsOk : Bool)

/-- Run one invocation. -/
def PCStep.run : PCStep → PCState → PCState
  | PCStep.fork task init r s => trace_process_fork task init r s
  | PCStep.exec task init r s => trace_process_exec task init r s
  | PCStep.exit task init r s => trace_process_exit task init r s

/-- Run a sequence of invocations, oldest first. -/
def runSteps (steps : List PCStep) (st : PCState) : PCState :=
  steps.foldl (fun s stp => stp.run s) st

/-- The counter value the statistics table holds for `p` (0 when absent). -/
def statsVal (st : PCState) (p : Nat) : Nat :=
  (st.stats p).getD 0

/-- The pid of the step's task (the key whose counter an emitting invocation
bumps). -/
def PCStep.pid : PCStep → Nat
  | PCStep.fork task _ _ _ => task.pid
  | PCStep.exec task _ _ _ => task.pid
  | PCStep.exit task _ _ _ => task.pid

/-- Whether the step's ring-buffer reserve succeeded. -/
def PCStep.reserveOk : PCStep → Bool
  | PCStep.fork _ _ r _ => r
  | PCStep.exec _ _ r _ => r
  | PCStep.exit _ _ r _ => r

/-- Whether the step's stats-map insert (if one is needed) succeeded. -/
def PCStep.statsOk : PCStep → Bool
  | PCStep.fork _ _ _ s => s
  | PCStep.exec _ _ _ s => s
  | PCStep.exit _ _ _ s => s

end ProcCollector

namespace Execsnoop

/-- The argv pointer array of a well-formed `execve` call with argument list
`L`: slot `i` holds the i-th string for `i < L.length` and the terminating
NULL pointer afterwards. -/
def argvOfList (L : List (List Nat)) : Nat → ArgSlot :=
  fun i =>
    match L[i]? with
    | some s => ArgSlot.str s
    | none => ArgSlot.nullPtr

/-- A string as it is laid out in the trailer: its bytes then a NUL. -/
def encodeArg (s : List Nat) : List Nat := s ++ [0]

/-- The trailer layout of an argument list: concatenated NUL-terminated
strings in order. -/
def encodeArgs (L : List (List Nat)) : List Nat :=
  (L.map encodeArg).flatten

/-- Decoder of the trailer: split a byte list into its NUL-terminated
strings (a trailing unterminated run, which the scan never produces,
decodes as a final group). -/
def splitOnZero : List Nat → List (List Nat)
  | [] => []
  | x :: xs =>
    if x = 0 then [] :: splitOnZero xs
    else
      match splitOnZero xs with
      | [] => [[x]]
      | g :: gs => (x :: g) :: gs

/-- Well-formedness invariant of a scan state: the size never exceeds the
trailer capacity, the trailer holds exactly `args_size` bytes, and it is the
concatenation of `args_count` NUL-terminated chunks starting at offset 0. -/
def ScanInv (st : ScanResult) : Prop :=
  st.args_size ≤ FULL_MAX_ARGS_ARR ∧
  st.args.length = st.args_size ∧
  ∃ chunks : List (List Nat), chunks.length = st.args_count ∧ st.args = encodeArgs chunks

/-- Little-endian byte serialization of a 32-bit unsigned field. -/
def encU32 (x : Nat) : List Nat :=
  [x % 256, x / 256 % 256, x / 65536 % 256, x / 16777216 % 256]

/-- Little-endian byte serialization of a 32-bit signed field
(two's complement). -/
def encI32 (x : Int) : List Nat :=
  encU32 (x % 4294967296).toNat

/-- Little-endian byte serialization of a 64-bit unsigned field. -/
def encU64 (x : Nat) : List Nat :=
  [x % 256, x / 2 ^ 8 % 256, x / 2 ^ 16 % 256, x / 2 ^ 24 % 256,
   x / 2 ^ 32 % 256, x / 2 ^ 40 % 256, x / 2 ^ 48 % 256, x / 2 ^ 56 % 256]

/-- A `char[16]` field: the stored bytes truncated to 16 and zero-padded. -/
def fix16 (c : List Nat) : List Nat :=
  c.take 16 ++ List.replicate (16 - (c.take 16).length) 0

/-- Pad (or truncate) a byte list to exactly `n` bytes with zeros; models the
unspecified/zero bytes of a reserved slot beyond the meaningful payload. -/
def padTo (n : Nat) (l : List Nat) : List Nat :=
  l.take n ++ List.replicate (n - (l.take n).length) 0

/-- Byte layout of `struct execsnoop_event` (execsnoop_types.h lines 15-24):
pid, ppid, uid, retval, args_count, args_size (4 bytes each, offsets 0..23)
then `comm[16]` at offset 24; 40 bytes total, no padding. -/
def serializeExecsnoopBase (e : Event) : List Nat :=
  encI32 e.pid ++ encI32 e.ppid ++ encU32 e.uid ++ encI32 e.retval ++
    encU32 e.args_count ++ encU32 e.args_size ++ fix16 e.comm

/-- Byte layout of a full ring-buffer record of the execve tracer
(`struct event`): the 40-byte header immediately followed by the
`FULL_MAX_ARGS_ARR`-byte trailer, of which the first `args_size` bytes are
meaningful. -/
def serializeExecsnoopRecord (e : Event) : List Nat :=
  serializeExecsnoopBase e ++ padTo FULL_MAX_ARGS_ARR e.args

end Execsnoop

namespace ProcCollector

/-- Byte layout of `struct process_event` (process_collector.bpf.c lines
13-22) under the C ABI: pid@0, ppid@4, uid@8, gid@12, comm@16 (16 bytes),
timestamp@32 (8 bytes, 8-aligned), exit_code@40, event_type@44 (1 byte),
3 tail padding bytes; 48 bytes total. -/
def serializeProcessRecord (e : ProcessEvent) : List Nat :=
  Execsnoop.encU32 e.pid ++ Execsnoop.encU32 e.ppid ++ Execsnoop.encU32 e.uid ++
    Execsnoop.encU32 e.gid ++ Execsnoop.fix16 e.comm ++
    Execsnoop.encU64 e.timestamp ++ Execsnoop.encU32 e.exit_code ++
    [e.event_type % 256] ++ [0, 0, 0]

end ProcCollector

namespace Execsnoop

theorem probe_read_user_str_spec (size : Nat) (s : List Nat) (hsz : 1 ≤ size) :
    0 < (probe_read_user_str size s).2 ∧
    (probe_read_user_str size s).2.toNat ≤ size ∧
    (probe_read_user_str size s).1.length = (probe_read_user_str size s).2.toNat ∧
    ∃ c, (probe_read_user_str size s).1 = c ++ [0] := by
  unfold probe_read_user_str
  split
  case isTrue h =>
    refine ⟨by positivity, ?_, ?_, s, rfl⟩
    · simpa using h
    · simp
  case isFalse h =>
    refine ⟨by simpa using hsz, by simp, ?_, s.take (size - 1), rfl⟩
    simp only [List.length_append, List.length_take, List.length_singleton, Int.toNat_natCast]
    omega

theorem scanGo_inv (ma : Int) (argv : Nat → ArgSlot) (i : Nat) (st : ScanResult)
    (h : ScanInv st) : ScanInv (scanGo ma argv i st) := by
  rw [scanGo]
  split
  case isFalse => exact h
  case isTrue hcond =>
    have hst1 : ScanInv { st with iters := st.iters + 1 } := h
    cases harg : argv i with
    | nullPtr => exact hst1
    | badStr =>
      simp only [readArgStr]
      split
      · exact hst1
      · norm_num
        exact hst1
    | str s =>
      simp only [readArgStr]
      split
      case isTrue => exact hst1
      case isFalse hrem =>
        have hsz1 : 1 ≤ min (FULL_MAX_ARGS_ARR - st.args_size) ARGSIZE := by
          have hA : ARGSIZE = 128 := rfl
          omega
        obtain ⟨hpos, hle, hlen, c, hc⟩ :=
          probe_read_user_str_spec (min (FULL_MAX_ARGS_ARR - st.args_size) ARGSIZE) s hsz1
        rw [if_pos hpos]
        split
        case isTrue => exact hst1
        case isFalse hfit =>
          apply scanGo_inv
          obtain ⟨hszle, hlarg, chunks, hck, hargs⟩ := h
          refine ⟨by dsimp only; omega, ?_, chunks ++ [c], ?_, ?_⟩
          · dsimp only
            simp only [List.length_append, hlarg, hlen]
          · dsimp only
            simpa using hck
          · dsimp only
            simp only [hargs, hc, encodeArgs, encodeArg, List.map_append,
              List.map_cons, List.map_nil, List.flatten_append, List.flatten_cons,
              List.flatten_nil, List.append_nil, List.append_assoc]
termination_by DEFAULT_MAXARGS - i
decreasing_by simp_wf; omega

end Execsnoop

namespace Execsnoop

theorem encodeArgs_cons (s : List Nat) (L : List (List Nat)) :
    encodeArgs (s :: L) = s ++ [0] ++ encodeArgs L := by
  simp [encodeArgs, encodeArg]

theorem probe_read_exact (s : List Nat) (size : Nat) (h : s.length + 1 ≤ size) :
    probe_read_user_str size s = (s ++ [0], ((s.length + 1 : Nat) : Int)) := by
  unfold probe_read_user_str
  rw [if_pos h]

theorem scanGo_complete (ma : Int) (L : List (List Nat)) :
    ∀ (argv : Nat → ArgSlot) (i : Nat) (st : ScanResult),
      (∀ j (hj : j < L.length), argv (i + j) = ArgSlot.str (L.get ⟨j, hj⟩)) →
      argv (i + L.length) = ArgSlot.nullPtr →
      (∀ s ∈ L, s.length < ARGSIZE) →
      (i : Int) + L.length ≤ ma →
      i + L.length ≤ DEFAULT_MAXARGS →
      st.args_size + (encodeArgs L).length ≤ FULL_MAX_ARGS_ARR →
      (scanGo ma argv i st).args_count = st.args_count + L.length ∧
      (scanGo ma argv i st).args_size = st.args_size + (encodeArgs L).length ∧
      (scanGo ma argv i st).args = st.args ++ encodeArgs L := by
  induction L with
  | nil =>
    intro argv i st hstr hnull hlen hma hdm hcap
    have h0 : argv i = ArgSlot.nullPtr := by simpa using hnull
    rw [scanGo]
    split
    case isFalse => simp [encodeArgs]
    case isTrue hcond => simp [h0, encodeArgs]
  | cons s L ih =>
    intro argv i st hstr hnull hlen hma hdm hcap
    have hlens : s.length < ARGSIZE := hlen s (List.mem_cons_self s L)
    have hencL : (encodeArgs (s :: L)).length = s.length + 1 + (encodeArgs L).length := by
      simp [encodeArgs_cons]
      omega
    have hArg : ARGSIZE = 128 := rfl
    have hguard : i < DEFAULT_MAXARGS ∧ (i : Int) < ma := by
      simp only [List.length_cons] at hma hdm
      push_cast at hma
      exact ⟨by omega, by omega⟩
    have h0 : argv i = ArgSlot.str s := by
      have h1 := hstr 0 (by simp)
      simpa using h1
    rw [scanGo, dif_pos hguard, h0]
    dsimp only
    rw [if_neg (show ¬(FULL_MAX_ARGS_ARR - st.args_size = 0) by omega)]
    dsimp only [readArgStr]
    have hfits : s.length + 1 ≤ min (FULL_MAX_ARGS_ARR - st.args_size) ARGSIZE := by
      omega
    rw [probe_read_exact s _ hfits]
    dsimp only
    rw [if_pos (show (0 : Int) < ((s.length + 1 : Nat) : Int) by positivity)]
    simp only [Int.toNat_natCast]
    rw [if_neg (show ¬(FULL_MAX_ARGS_ARR < st.args_size + (s.length + 1)) by omega)]
    have hstr2 : ∀ j (hj : j < L.length), argv (i + 1 + j) = ArgSlot.str (L.get ⟨j, hj⟩) := by
      intro j hj
      have h1 := hstr (j + 1) (by simp only [List.length_cons]; omega)
      have hidx : i + (j + 1) = i + 1 + j := by omega
      rw [hidx] at h1
      simpa using h1
    have hnull2 : argv (i + 1 + L.length) = ArgSlot.nullPtr := by
      have hidx : i + (s :: L).length = i + 1 + L.length := by
        simp only [List.length_cons]
        omega
      rw [← hidx]
      exact hnull
    have hlen2 : ∀ t ∈ L, t.length < ARGSIZE := fun t ht => hlen t (List.mem_cons_of_mem s ht)
    have hma2 : ((i + 1 : Nat) : Int) + L.length ≤ ma := by
      simp only [List.length_cons] at hma
      push_cast at hma ⊢
      omega
    have hdm2 : i + 1 + L.length ≤ DEFAULT_MAXARGS := by
      simp only [List.length_cons] at hdm
      omega
    obtain ⟨ih1, ih2, ih3⟩ := ih argv (i + 1)
      { args_count := st.args_count + 1
        args_size := st.args_size + (s.length + 1)
        args := st.args ++ (s ++ [0])
        iters := st.iters + 1 } hstr2 hnull2 hlen2 hma2 hdm2 (by dsimp only; omega)
    refine ⟨?_, ?_, ?_⟩
    · rw [ih1]
      dsimp only
      simp only [List.length_cons]
      omega
    · rw [ih2]
      dsimp only
      omega
    · rw [ih3]
      dsimp only
      rw [encodeArgs_cons]
      simp [List.append_assoc]

end Execsnoop

namespace Execsnoop

theorem splitOnZero_encodeArg (s rest : List Nat) (h : 0 ∉ s) :
    splitOnZero (s ++ [0] ++ rest) = s :: splitOnZero rest := by
  induction s with
  | nil => simp [splitOnZero]
  | cons x s ih =>
    have hx : ¬(x = 0) := fun hx0 => h (hx0 ▸ List.mem_cons_self x s)
    have hs : 0 ∉ s := fun hs0 => h (List.mem_cons_of_mem x hs0)
    have ih2 := ih hs
    simp only [List.cons_append, splitOnZero, if_neg hx, List.append_eq] at ih2 ⊢
    rw [ih2]

theorem splitOnZero_encodeArgs (L : List (List Nat)) (h : ∀ s ∈ L, 0 ∉ s) :
    splitOnZero (encodeArgs L) = L := by
  induction L with
  | nil => rfl
  | cons s L ih =>
    rw [encodeArgs_cons, splitOnZero_encodeArg s (encodeArgs L) (h s (List.mem_cons_self s L))]
    rw [ih (fun t ht => h t (List.mem_cons_of_mem s ht))]

theorem scanGo_bounds (ma : Int) (argv : Nat → ArgSlot) (i : Nat) (st : ScanResult) :
    (scanGo ma argv i st).iters ≤ st.iters + (DEFAULT_MAXARGS - i) ∧
    (scanGo ma argv i st).args_count ≤ st.args_count + (DEFAULT_MAXARGS - i) ∧
    ((0 : Int) ≤ ma → (scanGo ma argv i st).args_count ≤ st.args_count + (ma.toNat - i)) := by
  rw [scanGo]
  split
  case isFalse => exact ⟨by omega, by omega, fun _ => by omega⟩
  case isTrue hcond =>
    have hi : i < DEFAULT_MAXARGS := hcond.1
    have hima : (i : Int) < ma := hcond.2
    cases harg : argv i with
    | nullPtr =>
      refine ⟨by dsimp only; omega, by dsimp only; omega, fun hma0 => by dsimp only; omega⟩
    | badStr =>
      simp only [readArgStr]
      split
      · exact ⟨by dsimp only; omega, by dsimp only; omega, fun hma0 => by dsimp only; omega⟩
      · norm_num
        omega
    | str s =>
      simp only [readArgStr]
      split
      case isTrue =>
        exact ⟨by dsimp only; omega, by dsimp only; omega, fun hma0 => by dsimp only; omega⟩
      case isFalse hrem =>
        split
        case isFalse =>
          exact ⟨by dsimp only; omega, by dsimp only; omega, fun hma0 => by dsimp only; omega⟩
        case isTrue hpos =>
          split
          case isTrue =>
            exact ⟨by dsimp only; omega, by dsimp only; omega, fun hma0 => by dsimp only; omega⟩
          case isFalse hfit =>
            obtain ⟨ihi, ihc, ihm⟩ := scanGo_bounds ma argv (i + 1)
              { args_count := st.args_count + 1
                args_size := st.args_size +
                  (probe_read_user_str (min (FULL_MAX_ARGS_ARR - st.args_size) ARGSIZE) s).2.toNat
                args := st.args ++
                  (probe_read_user_str (min (FULL_MAX_ARGS_ARR - st.args_size) ARGSIZE) s).1
                iters := st.iters + 1 }
            refine ⟨?_, ?_, fun hma0 => ?_⟩
            · dsimp only at ihi ⊢
              omega
            · dsimp only at ihc ⊢
              omega
            · have h1 := ihm hma0
              dsimp only at h1 ⊢
              have hilt : i < ma.toNat := by omega
              omega
termination_by DEFAULT_MAXARGS - i
decreasing_by simp_wf; omega

end Execsnoop

namespace Execsnoop

theorem encodeArgs_length_le (L : List (List Nat)) (h : ∀ s ∈ L, s.length < ARGSIZE) :
    (encodeArgs L).length ≤ L.length * ARGSIZE := by
  induction L with
  | nil => simp [encodeArgs]
  | cons s L ih =>
    have hs : s.length < ARGSIZE := h s (List.mem_cons_self s L)
    have ih2 := ih (fun t ht => h t (List.mem_cons_of_mem s ht))
    rw [encodeArgs_cons]
    simp only [List.length_append, List.length_cons, List.length_nil, Nat.succ_mul]
    omega

theorem scanArgs_inv (max_args : Int) (argv : Nat → ArgSlot) :
    ScanInv (scanArgs max_args argv) :=
  scanGo_inv max_args argv 0 _ ⟨Nat.zero_le _, rfl, [], rfl, rfl⟩

/-- C2: for every argument list of length `n ≤ max_args` (the tunable itself
within the compile-time bound `DEFAULT_MAXARGS`, as the configuration surface
requires) whose pointer array is null-terminated and whose every argument is
shorter than `ARGSIZE`, the bounded reader captures `args_count = n` and a
trailer that is exactly the `n` strings, null-terminated, in order — so the
trailer decodes back to the original list. -/
theorem C2_reader_captures_all_args (max_args : Int) (L : List (List Nat))
    (hma : max_args ≤ (DEFAULT_MAXARGS : Nat))
    (hn : (L.length : Int) ≤ max_args)
    (hlen : ∀ s ∈ L, s.length < ARGSIZE)
    (hz : ∀ s ∈ L, 0 ∉ s) :
    (scanArgs max_args (argvOfList L)).args_count = L.length ∧
    (scanArgs max_args (argvOfList L)).args = encodeArgs L ∧
    splitOnZero (scanArgs max_args (argvOfList L)).args = L := by
  have hstr : ∀ j (hj : j < L.length),
      argvOfList L (0 + j) = ArgSlot.str (L.get ⟨j, hj⟩) := by
    intro j hj
    simp [argvOfList, List.getElem?_eq_getElem hj]
  have hnull : argvOfList L (0 + L.length) = ArgSlot.nullPtr := by
    simp [argvOfList, List.getElem?_eq_none (Nat.le_refl L.length)]
  have hma2 : max_args ≤ (20 : Int) := by simpa [DEFAULT_MAXARGS] using hma
  have hdm : (0 : Nat) + L.length ≤ DEFAULT_MAXARGS := by
    simp only [DEFAULT_MAXARGS]
    omega
  have hcap : (0 : Nat) + (encodeArgs L).length ≤ FULL_MAX_ARGS_ARR := by
    have h1 := encodeArgs_length_le L hlen
    have h2 : L.length ≤ 20 := by omega
    have h3 : ARGSIZE = 128 := rfl
    have h4 : FULL_MAX_ARGS_ARR = 7680 := rfl
    nlinarith
  obtain ⟨h1, h2, h3⟩ := scanGo_complete max_args L (argvOfList L) 0
    { args_count := 0, args_size := 0, args := [], iters := 0 }
    hstr hnull hlen (by push_cast; omega) hdm hcap
  have hargs : (scanArgs max_args (argvOfList L)).args = encodeArgs L := by
    simpa [scanArgs] using h3
  refine ⟨by simpa [scanArgs] using h1, hargs, ?_⟩
  rw [hargs]
  exact splitOnZero_encodeArgs L hz

/-- C2 witness: the spec's concrete scenario, arguments "/bin/ls" and "-l"
(7 and 2 bytes), captured completely and in order. -/
theorem C2_reader_captures_all_args_witness :
    (scanArgs 20 (argvOfList [[47, 98, 105, 110, 47, 108, 115], [45, 108]])).args_count = 2 ∧
    (scanArgs 20 (argvOfList [[47, 98, 105, 110, 47, 108, 115], [45, 108]])).args =
      encodeArgs [[47, 98, 105, 110, 47, 108, 115], [45, 108]] ∧
    splitOnZero (scanArgs 20 (argvOfList [[47, 98, 105, 110, 47, 108, 115], [45, 108]])).args =
      [[47, 98, 105, 110, 47, 108, 115], [45, 108]] := by
  have h := C2_reader_captures_all_args 20 [[47, 98, 105, 110, 47, 108, 115], [45, 108]]
    (by norm_num [DEFAULT_MAXARGS]) (by norm_num) (by decide) (by decide)
  simpa using h

/-- C3: at every step of the bounded scan (each loop state satisfying the
invariant leads only to states satisfying it) and at its end, the cumulative
trailer size stays within `FULL_MAX_ARGS_ARR`, the trailer holds exactly
`args_size` bytes, and the `args_count` captured strings lie null-terminated
and contiguous from offset 0 of the trailer. -/
theorem C3_capacity_never_exceeded (max_args : Int) (argv : Nat → ArgSlot) :
    (∀ (i : Nat) (st : ScanResult), ScanInv st → ScanInv (scanGo max_args argv i st)) ∧
    ((scanArgs max_args argv).args_size ≤ FULL_MAX_ARGS_ARR ∧
     (scanArgs max_args argv).args.length = (scanArgs max_args argv).args_size ∧
     ∃ chunks : List (List Nat), chunks.length = (scanArgs max_args argv).args_count ∧
       (scanArgs max_args argv).args = encodeArgs chunks) :=
  ⟨fun i st h => scanGo_inv max_args argv i st h, scanArgs_inv max_args argv⟩

/-- C3 witness at a concrete overlong input: a single argument list whose
slots all point at 127-byte strings (worst case below `ARGSIZE`), scanned
from the initial state, stays within capacity. -/
theorem C3_capacity_never_exceeded_witness :
    ScanInv (scanGo 20 (fun _ => ArgSlot.str (List.replicate 127 65)) 0
      { args_count := 0, args_size := 0, args := [], iters := 0 }) :=
  (C3_capacity_never_exceeded 20 (fun _ => ArgSlot.str (List.replicate 127 65))).1 0
    { args_count := 0, args_size := 0, args := [], iters := 0 }
    ⟨Nat.zero_le _, rfl, [], rfl, rfl⟩

/-- C7: for every argv array and every value of the `max_args` tunable, the
argument-scan loop body runs at most the compile-time constant
`DEFAULT_MAXARGS` times, and captures at most `max_args` strings (and in any
case at most `DEFAULT_MAXARGS`). -/
theorem C7_loop_statically_bounded (max_args : Int) (argv : Nat → ArgSlot) :
    (scanArgs max_args argv).iters ≤ DEFAULT_MAXARGS ∧
    (scanArgs max_args argv).args_count ≤ DEFAULT_MAXARGS ∧
    (0 ≤ max_args → ((scanArgs max_args argv).args_count : Int) ≤ max_args) := by
  obtain ⟨h1, h2, h3⟩ := scanGo_bounds max_args argv 0
    { args_count := 0, args_size := 0, args := [], iters := 0 }
  refine ⟨by simpa [scanArgs] using h1, by simpa [scanArgs] using h2, fun hma0 => ?_⟩
  have h4 := h3 hma0
  simp only [scanArgs]
  dsimp only at h4
  omega

/-- C7 witness: with the default tunable value and an unbounded-looking argv
(every slot readable), the loop still runs at most 20 iterations and captures
at most 20 strings. -/
theorem C7_loop_statically_bounded_witness :
    (scanArgs 20 (fun _ => ArgSlot.str [65])).iters ≤ DEFAULT_MAXARGS ∧
    (scanArgs 20 (fun _ => ArgSlot.str [65])).args_count ≤ DEFAULT_MAXARGS ∧
    ((scanArgs 20 (fun _ => ArgSlot.str [65])).args_count : Int) ≤ 20 := by
  obtain ⟨h1, h2, h3⟩ := C7_loop_statically_bounded 20 (fun _ => ArgSlot.str [65])
  exact ⟨h1, h2, h3 (by norm_num)⟩

end Execsnoop

namespace Execsnoop

/-- C1: a begin-probe for pid p followed (with no intervening begin for p) by
an end-probe for p, with the scratch lookup, correlation-table insert and
ring-buffer reserve all succeeding, emits exactly one event, whose pid, ppid
and uid are the begin-time values, whose retval is the end-probe's syscall
return code, and whose comm is the process name read at end time. -/
theorem C1_begin_end_correlation (max_args : Int) (cb : EnterCtx) (ce : ExitCtx)
    (st0 : SysState) (hpid : ce.pid = cb.pid) :
    ∃ e : Event,
      (sys_exit_execve ce true (sys_enter_execve max_args cb true true st0)).ring =
        st0.ring ++ [e] ∧
      e.pid = cb.pid ∧ e.ppid = cb.ppid ∧ e.uid = cb.uid ∧
      e.retval = ce.ret ∧ e.comm = ce.comm := by
  simp only [sys_enter_execve, sys_exit_execve, execsInsert, execsDelete, hpid,
    if_true, if_pos rfl]
  exact ⟨_, rfl, rfl, rfl, rfl, rfl, rfl⟩

/-- C1 witness: the spec's concrete scenario shape — begin(pid 100, parent 1,
uid 0) then end(pid 100, result 0, name "ls"). -/
theorem C1_begin_end_correlation_witness :
    ∃ e : Event,
      (sys_exit_execve ⟨100, 0, [108, 115]⟩ true
        (sys_enter_execve 20 ⟨100, 1, 0, 0, fun _ => ArgSlot.nullPtr⟩ true true
          ⟨fun _ => none, []⟩)).ring = ([] : List Event) ++ [e] ∧
      e.pid = 100 ∧ e.ppid = 1 ∧ e.uid = 0 ∧ e.retval = 0 ∧ e.comm = [108, 115] :=
  C1_begin_end_correlation 20 ⟨100, 1, 0, 0, fun _ => ArgSlot.nullPtr⟩
    ⟨100, 0, [108, 115]⟩ ⟨fun _ => none, []⟩ rfl

/-- C4: an end-probe invocation for a pid with no correlation entry is a
complete no-op — the whole state (correlation table and ring buffer) is
returned unchanged, whatever the ring-buffer reserve would have done. -/
theorem C4_end_without_begin_noop (ce : ExitCtx) (reserveOk : Bool) (st : SysState)
    (h : st.execs ce.pid = none) :
    sys_exit_execve ce reserveOk st = st := by
  simp only [sys_exit_execve, h]

/-- C4 witness: end-probe for pid 7 on the empty state. -/
theorem C4_end_without_begin_noop_witness :
    sys_exit_execve ⟨7, -1, []⟩ true ⟨fun _ => none, []⟩ = ⟨fun _ => none, []⟩ :=
  C4_end_without_begin_noop ⟨7, -1, []⟩ true ⟨fun _ => none, []⟩ rfl

/-- C5: an end-probe that finds a correlation entry but whose ring-buffer
reserve fails emits nothing, and still deletes the correlation entry for that
pid (leaving every other entry untouched) before returning. -/
theorem C5_reserve_failure_still_deletes (ce : ExitCtx) (st : SysState) (ev0 : Event)
    (h : st.execs ce.pid = some ev0) :
    (sys_exit_execve ce false st).ring = st.ring ∧
    (sys_exit_execve ce false st).execs ce.pid = none ∧
    ∀ q, q ≠ ce.pid → (sys_exit_execve ce false st).execs q = st.execs q := by
  simp only [sys_exit_execve, h, Bool.false_eq_true, if_false, execsDelete]
  exact ⟨trivial, if_pos trivial, fun q hq => if_neg hq⟩

/-- C5 witness: a state holding one entry for pid 5; reserve fails. -/
theorem C5_reserve_failure_still_deletes_witness :
    (sys_exit_execve ⟨5, 0, []⟩ false
      ⟨fun k => if k = 5 then some ⟨5, 1, 0, 0, 0, 0, [], []⟩ else none, []⟩).ring = [] ∧
    (sys_exit_execve ⟨5, 0, []⟩ false
      ⟨fun k => if k = 5 then some ⟨5, 1, 0, 0, 0, 0, [], []⟩ else none, []⟩).execs 5 = none ∧
    ∀ q, q ≠ (5 : Int) →
      (sys_exit_execve ⟨5, 0, []⟩ false
        ⟨fun k => if k = 5 then some ⟨5, 1, 0, 0, 0, 0, [], []⟩ else none, []⟩).execs q =
      (if q = 5 then some (⟨5, 1, 0, 0, 0, 0, [], []⟩ : Event) else none) :=
  C5_reserve_failure_still_deletes ⟨5, 0, []⟩
    ⟨fun k => if k = 5 then some ⟨5, 1, 0, 0, 0, 0, [], []⟩ else none, []⟩
    ⟨5, 1, 0, 0, 0, 0, [], []⟩ (by simp)

end Execsnoop

namespace Execsnoop

/-- C6: a second begin-probe for the same pid before the first's end-probe
overwrites the pending correlation entry (last-writer-wins, no merge), and a
subsequent end-probe emits exactly one event, built from the second begin's
data (identity fields and scanned arguments) and the end-probe's data only. -/
theorem C6_second_begin_overwrites (max_args : Int) (cb1 cb2 : EnterCtx) (ce : ExitCtx)
    (st0 : SysState) (h12 : cb2.pid = cb1.pid) (he : ce.pid = cb2.pid) :
    ((sys_enter_execve max_args cb2 true true
        (sys_enter_execve max_args cb1 true true st0)).execs cb1.pid =
      some { pid := cb2.pid, ppid := cb2.ppid, uid := cb2.uid, retval := 0,
             args_count := (scanArgs max_args cb2.argv).args_count,
             args_size := (scanArgs max_args cb2.argv).args_size,
             comm := [], args := (scanArgs max_args cb2.argv).args }) ∧
    ∃ e : Event,
      (sys_exit_execve ce true (sys_enter_execve max_args cb2 true true
        (sys_enter_execve max_args cb1 true true st0))).ring = st0.ring ++ [e] ∧
      e.pid = cb2.pid ∧ e.ppid = cb2.ppid ∧ e.uid = cb2.uid ∧
      e.args_count = (scanArgs max_args cb2.argv).args_count ∧
      e.args_size = (scanArgs max_args cb2.argv).args_size ∧
      e.args = (scanArgs max_args cb2.argv).args ∧
      e.retval = ce.ret ∧ e.comm = ce.comm := by
  have hargsfix :
      (if 0 < (scanArgs max_args cb2.argv).args_size ∧
          (scanArgs max_args cb2.argv).args_size ≤ FULL_MAX_ARGS_ARR then
        (scanArgs max_args cb2.argv).args
      else []) = (scanArgs max_args cb2.argv).args := by
    obtain ⟨hle, hlenv, _⟩ := scanArgs_inv max_args cb2.argv
    by_cases hpos : 0 < (scanArgs max_args cb2.argv).args_size
    · rw [if_pos ⟨hpos, hle⟩]
    · have h0 : (scanArgs max_args cb2.argv).args_size = 0 := by omega
      have h0' : (scanArgs max_args cb2.argv).args = [] :=
        List.length_eq_zero.mp (by rw [hlenv, h0])
      rw [if_neg (fun hcon => hpos hcon.1), h0']
  constructor
  · simp [sys_enter_execve, execsInsert, h12]
  · simp only [sys_enter_execve, sys_exit_execve, execsInsert, execsDelete, he, h12,
      if_true, if_pos rfl]
    exact ⟨_, rfl, rfl, rfl, rfl, rfl, rfl, hargsfix, rfl, rfl⟩

/-- C6 witness: pid 100 begins twice (parents 1 then 2, uids 0 then 5); the
pending entry afterwards holds the second begin's data only. -/
theorem C6_second_begin_overwrites_witness :
    (sys_enter_execve 20 ⟨100, 2, 5, 0, fun _ => ArgSlot.nullPtr⟩ true true
        (sys_enter_execve 20 ⟨100, 1, 0, 0, fun _ => ArgSlot.nullPtr⟩ true true
          ⟨fun _ => none, []⟩)).execs 100 =
      some { pid := 100, ppid := 2, uid := 5, retval := 0,
             args_count := (scanArgs 20 (fun _ => ArgSlot.nullPtr)).args_count,
             args_size := (scanArgs 20 (fun _ => ArgSlot.nullPtr)).args_size,
             comm := [], args := (scanArgs 20 (fun _ => ArgSlot.nullPtr)).args } :=
  (C6_second_begin_overwrites 20 ⟨100, 1, 0, 0, fun _ => ArgSlot.nullPtr⟩
    ⟨100, 2, 5, 0, fun _ => ArgSlot.nullPtr⟩ ⟨100, 0, [108, 115]⟩
    ⟨fun _ => none, []⟩ rfl rfl).1

end Execsnoop

namespace ProcCollector

theorem populate_pid (init : ProcessEvent) (task : TaskCtx) :
    (populate_event_common init task).1.pid = task.pid := by
  unfold populate_event_common
  rcases hpp : task.parent_pid with _ | pp <;> rcases hc : task.cred with _ | ug <;>
    simp [hpp, hc]

theorem run_stats_shape (s : PCStep) (st : PCState) :
    (PCStep.run s st).stats =
      if s.reserveOk then update_process_stats s.statsOk st.stats s.pid else st.stats := by
  cases s with
  | fork task init r so =>
    cases r <;>
      simp [PCStep.run, trace_process_fork, PCStep.reserveOk, PCStep.statsOk, PCStep.pid,
        show (populate_event_common init task).2 = 0 from rfl, populate_pid]
  | exec task init r so =>
    cases r <;>
      simp [PCStep.run, trace_process_exec, PCStep.reserveOk, PCStep.statsOk, PCStep.pid,
        show (populate_event_common init task).2 = 0 from rfl, populate_pid]
  | exit task init r so =>
    cases r <;>
      simp [PCStep.run, trace_process_exit, PCStep.reserveOk, PCStep.statsOk, PCStep.pid,
        show (populate_event_common init task).2 = 0 from rfl, populate_pid]

theorem update_stats_self (sOk : Bool) (stats : Nat → Option Nat) (p : Nat)
    (h : sOk = true) :
    update_process_stats sOk stats p p = some (((stats p).getD 0 + 1) % 2 ^ 64) := by
  subst h
  unfold update_process_stats
  cases hs : stats p with
  | some c => simp
  | none =>
    norm_num

theorem update_stats_other (sOk : Bool) (stats : Nat → Option Nat) (p q : Nat)
    (h : q ≠ p) :
    update_process_stats sOk stats p q = stats q := by
  unfold update_process_stats
  cases hs : stats p with
  | some c => simp [h]
  | none => cases sOk <;> simp [h]

theorem update_stats_self_le (sOk : Bool) (stats : Nat → Option Nat) (p : Nat) :
    (update_process_stats sOk stats p p).getD 0 ≤ (stats p).getD 0 + 1 := by
  unfold update_process_stats
  cases hs : stats p with
  | some c =>
    simp
    exact Nat.le_trans (Nat.mod_le _ _) (Nat.le_refl _)
  | none => cases sOk <;> simp [hs]

theorem update_stats_self_ge (sOk : Bool) (stats : Nat → Option Nat) (p : Nat)
    (h : (stats p).getD 0 + 1 < 2 ^ 64) :
    (stats p).getD 0 ≤ (update_process_stats sOk stats p p).getD 0 := by
  unfold update_process_stats
  cases hs : stats p with
  | some c =>
    rw [hs] at h
    simp at h ⊢
    rw [Nat.mod_eq_of_lt (by omega)]
    omega
  | none => cases sOk <;> simp [hs]

theorem step_val_upper (s : PCStep) (st : PCState) (q : Nat) :
    statsVal (PCStep.run s st) q ≤ statsVal st q + 1 := by
  simp only [statsVal, run_stats_shape]
  cases hr : s.reserveOk with
  | false => simp
  | true =>
    simp only [if_true]
    by_cases hq : q = s.pid
    · rw [hq]
      exact update_stats_self_le s.statsOk st.stats s.pid
    · rw [update_stats_other _ _ _ _ hq]
      omega

theorem step_val_lower (s : PCStep) (st : PCState) (q : Nat)
    (h : statsVal st q + 1 < 2 ^ 64) :
    statsVal st q ≤ statsVal (PCStep.run s st) q := by
  simp only [statsVal, run_stats_shape] at h ⊢
  cases hr : s.reserveOk with
  | false => simp
  | true =>
    simp only [if_true]
    by_cases hq : q = s.pid
    · rw [hq] at h ⊢
      exact update_stats_self_ge s.statsOk st.stats s.pid h
    · rw [update_stats_other _ _ _ _ hq]

theorem runSteps_stats_le (steps : List PCStep) :
    ∀ st0 : PCState, (∀ p, statsVal st0 p + steps.length < 2 ^ 64) →
      ∀ p, statsVal st0 p ≤ statsVal (runSteps steps st0) p := by
  induction steps with
  | nil =>
    intro st0 h p
    simp [runSteps]
  | cons s rest ih =>
    intro st0 h p
    have hlen : ∀ q, statsVal st0 q + rest.length + 1 < 2 ^ 64 := by
      intro q
      have h2 := h q
      simp only [List.length_cons] at h2
      omega
    have hmono : statsVal st0 p ≤ statsVal (PCStep.run s st0) p :=
      step_val_lower s st0 p (by have := hlen p; omega)
    have hcap2 : ∀ q, statsVal (PCStep.run s st0) q + rest.length < 2 ^ 64 := by
      intro q
      have h1 := step_val_upper s st0 q
      have h2 := hlen q
      omega
    have hrest : statsVal (PCStep.run s st0) p ≤ statsVal (runSteps rest (PCStep.run s st0)) p :=
      ih (PCStep.run s st0) hcap2 p
    have hfold : runSteps (s :: rest) st0 = runSteps rest (PCStep.run s st0) := rfl
    rw [hfold]
    exact Nat.le_trans hmono hrest

/-- C9: every secondary lifecycle invocation that emits an event for pid p
(reserve succeeded; the stats-map insert, needed only on first observation,
succeeded too) bumps the counter for p by exactly one — creating it at 1 on
first observation — and touches no other pid; and since no operation ever
decreases or deletes a counter entry, the value for every pid is monotonically
non-decreasing over any sequence of invocations (that stays below the 64-bit
wraparound). -/
theorem C9_counter_increment_monotone (s : PCStep) (st : PCState)
    (steps : List PCStep) (st0 : PCState)
    (hr : s.reserveOk = true) (hso : s.statsOk = true)
    (hcap : ∀ p, statsVal st0 p + steps.length < 2 ^ 64) :
    (PCStep.run s st).stats s.pid = some ((statsVal st s.pid + 1) % 2 ^ 64) ∧
    (st.stats s.pid = none → (PCStep.run s st).stats s.pid = some 1) ∧
    (∀ q, q ≠ s.pid → (PCStep.run s st).stats q = st.stats q) ∧
    (∀ p, statsVal st0 p ≤ statsVal (runSteps steps st0) p) := by
  have hmain : (PCStep.run s st).stats s.pid = some ((statsVal st s.pid + 1) % 2 ^ 64) := by
    rw [run_stats_shape, if_pos hr, update_stats_self _ _ _ hso]
    rfl
  refine ⟨hmain, ?_, ?_, runSteps_stats_le steps st0 hcap⟩
  · intro hnone
    rw [hmain]
    simp [statsVal, hnone]
  · intro q hq
    rw [run_stats_shape, if_pos hr]
    exact update_stats_other _ _ _ _ hq

/-- C9 witness: a fork invocation for pid 42 on the empty state creates the
counter at 1; a two-step trace (fork then exit for pid 42) never decreases
any counter. -/
theorem C9_counter_increment_monotone_witness :
    (PCStep.run (PCStep.fork ⟨42, [], some 1, some (0, 0), 0, 5⟩ ⟨0, 0, 0, 0, [], 0, 0, 0⟩ true true)
        ⟨[], fun _ => none, 0⟩).stats 42 = some ((0 + 1) % 2 ^ 64) ∧
    ((fun _ => (none : Option Nat)) 42 = none →
      (PCStep.run (PCStep.fork ⟨42, [], some 1, some (0, 0), 0, 5⟩ ⟨0, 0, 0, 0, [], 0, 0, 0⟩ true true)
        ⟨[], fun _ => none, 0⟩).stats 42 = some 1) ∧
    (∀ q, q ≠ 42 →
      (PCStep.run (PCStep.fork ⟨42, [], some 1, some (0, 0), 0, 5⟩ ⟨0, 0, 0, 0, [], 0, 0, 0⟩ true true)
        ⟨[], fun _ => none, 0⟩).stats q = (fun _ => (none : Option Nat)) q) ∧
    (∀ p, statsVal ⟨[], fun _ => none, 0⟩ p ≤
      statsVal (runSteps
        [PCStep.fork ⟨42, [], some 1, some (0, 0), 0, 5⟩ ⟨0, 0, 0, 0, [], 0, 0, 0⟩ true true,
         PCStep.exit ⟨42, [], some 1, some (0, 0), 0, 9⟩ ⟨0, 0, 0, 0, [], 0, 0, 0⟩ true true]
        ⟨[], fun _ => none, 0⟩) p) :=
  C9_counter_increment_monotone
    (PCStep.fork ⟨42, [], some 1, some (0, 0), 0, 5⟩ ⟨0, 0, 0, 0, [], 0, 0, 0⟩ true true)
    ⟨[], fun _ => none, 0⟩
    [PCStep.fork ⟨42, [], some 1, some (0, 0), 0, 5⟩ ⟨0, 0, 0, 0, [], 0, 0, 0⟩ true true,
     PCStep.exit ⟨42, [], some 1, some (0, 0), 0, 9⟩ ⟨0, 0, 0, 0, [], 0, 0, 0⟩ true true]
    ⟨[], fun _ => none, 0⟩ rfl rfl
    (fun p => by norm_num [statsVal])

/-- C10: `populate_event_common` returns 0 on every input, so the discard
branch guarded by a negative return is dead code in all three lifecycle
emitters: no invocation ever discards, and every invocation whose reserve
succeeded submits exactly one record. -/
theorem C10_populate_total_no_discard (init : ProcessEvent) (task : TaskCtx)
    (s : PCStep) (st : PCState) :
    (populate_event_common init task).2 = 0 ∧
    (PCStep.run s st).discards = st.discards ∧
    (s.reserveOk = true → (PCStep.run s st).ring.length = st.ring.length + 1) := by
  refine ⟨rfl, ?_, ?_⟩
  · cases s with
    | fork task2 init2 r so =>
      cases r <;>
        simp [PCStep.run, trace_process_fork,
          show (populate_event_common init2 task2).2 = 0 from rfl]
    | exec task2 init2 r so =>
      cases r <;>
        simp [PCStep.run, trace_process_exec,
          show (populate_event_common init2 task2).2 = 0 from rfl]
    | exit task2 init2 r so =>
      cases r <;>
        simp [PCStep.run, trace_process_exit,
          show (populate_event_common init2 task2).2 = 0 from rfl]
  · intro hr
    cases s with
    | fork task2 init2 r so =>
      simp only [PCStep.reserveOk] at hr
      subst hr
      simp [PCStep.run, trace_process_fork,
        show (populate_event_common init2 task2).2 = 0 from rfl]
    | exec task2 init2 r so =>
      simp only [PCStep.reserveOk] at hr
      subst hr
      simp [PCStep.run, trace_process_exec,
        show (populate_event_common init2 task2).2 = 0 from rfl]
    | exit task2 init2 r so =>
      simp only [PCStep.reserveOk] at hr
      subst hr
      simp [PCStep.run, trace_process_exit,
        show (populate_event_common init2 task2).2 = 0 from rfl]

/-- C10 witness: a concrete exec invocation with a successful reserve submits
one record and discards nothing. -/
theorem C10_populate_total_no_discard_witness :
    (populate_event_common ⟨0, 0, 0, 0, [], 0, 0, 0⟩ ⟨7, [97], some 1, some (0, 0), 0, 3⟩).2 = 0 ∧
    (PCStep.run (PCStep.exec ⟨7, [97], some 1, some (0, 0), 0, 3⟩ ⟨0, 0, 0, 0, [], 0, 0, 0⟩ true true)
        ⟨[], fun _ => none, 0⟩).discards = 0 ∧
    (PCStep.run (PCStep.exec ⟨7, [97], some 1, some (0, 0), 0, 3⟩ ⟨0, 0, 0, 0, [], 0, 0, 0⟩ true true)
        ⟨[], fun _ => none, 0⟩).ring.length = 1 := by
  obtain ⟨h1, h2, h3⟩ := C10_populate_total_no_discard ⟨0, 0, 0, 0, [], 0, 0, 0⟩
    ⟨7, [97], some 1, some (0, 0), 0, 3⟩
    (PCStep.exec ⟨7, [97], some 1, some (0, 0), 0, 3⟩ ⟨0, 0, 0, 0, [], 0, 0, 0⟩ true true)
    ⟨[], fun _ => none, 0⟩
  exact ⟨h1, h2, h3 rfl⟩

end ProcCollector

namespace Execsnoop

theorem encU32_length (x : Nat) : (encU32 x).length = 4 := rfl

theorem encI32_length (x : Int) : (encI32 x).length = 4 := rfl

theorem encU64_length (x : Nat) : (encU64 x).length = 8 := rfl

theorem fix16_length (c : List Nat) : (fix16 c).length = 16 := by
  simp [fix16]

theorem padTo_length (n : Nat) (l : List Nat) : (padTo n l).length = n := by
  simp only [padTo, List.length_append, List.length_replicate, List.length_take]
  omega

theorem serializeExecsnoopBase_length (e : Event) :
    (serializeExecsnoopBase e).length = 40 := by
  simp [serializeExecsnoopBase, encI32_length, encU32_length, fix16_length]

/-- C8 counterexample: the claim says every ring-buffer record's fixed header
contains the group id (and an 8-byte timestamp and an event-kind
discriminant).  The execve tracer's records contain none of these: two
begin/end runs whose kernel contexts differ only in the group id (high half
of `bpf_get_current_uid_gid()`, discarded by the `(u32)` cast at
execsnoop.bpf.c line 52) deliver byte-for-byte identical records, so no field
of the record can hold the group id. -/
theorem C8_counterexample :
    (⟨100, 1, 0, 0, fun _ => ArgSlot.nullPtr⟩ : EnterCtx).gid ≠
      (⟨100, 1, 0, 1, fun _ => ArgSlot.nullPtr⟩ : EnterCtx).gid ∧
    (sys_exit_execve ⟨100, 0, [108, 115]⟩ true
        (sys_enter_execve 20 ⟨100, 1, 0, 0, fun _ => ArgSlot.nullPtr⟩ true true
          ⟨fun _ => none, []⟩)).ring.map serializeExecsnoopRecord =
      (sys_exit_execve ⟨100, 0, [108, 115]⟩ true
        (sys_enter_execve 20 ⟨100, 1, 0, 1, fun _ => ArgSlot.nullPtr⟩ true true
          ⟨fun _ => none, []⟩)).ring.map serializeExecsnoopRecord :=
  ⟨by decide, rfl⟩

/-- C8 amended: records come in two fixed wire formats, one per ring buffer.
An execve-tracer record is a 40-byte header — pid, ppid, uid, retval,
args_count, args_size (4 bytes each) and a 16-byte name — immediately
followed by a trailer whose first `args_size` bytes are the concatenated
null-terminated argument strings, padded to the reserved slot size
(40 + `FULL_MAX_ARGS_ARR` bytes).  A lifecycle-collector record is a 48-byte
fixed record: pid, parent id, user id, group id (4 bytes each), 16-byte name,
8-byte timestamp at offset 32, 4-byte exit code, event-kind discriminant and
tail padding — with no variable trailer. -/
theorem C8_two_wire_formats (e : Event) (pe : ProcCollector.ProcessEvent)
    (hl : e.args.length = e.args_size) (hsz : e.args_size ≤ FULL_MAX_ARGS_ARR) :
    (serializeExecsnoopBase e).length = 40 ∧
    (serializeExecsnoopRecord e).length = 40 + FULL_MAX_ARGS_ARR ∧
    (serializeExecsnoopRecord e).take 40 = serializeExecsnoopBase e ∧
    ((serializeExecsnoopRecord e).drop 40).take e.args_size = e.args ∧
    (ProcCollector.serializeProcessRecord pe).length = 48 ∧
    ((ProcCollector.serializeProcessRecord pe).drop 12).take 4 = encU32 pe.gid ∧
    ((ProcCollector.serializeProcessRecord pe).drop 32).take 8 = encU64 pe.timestamp := by
  refine ⟨serializeExecsnoopBase_length e, ?_, ?_, ?_, ?_, ?_, ?_⟩
  · simp [serializeExecsnoopRecord, serializeExecsnoopBase_length, padTo_length]
  · exact List.take_left' (serializeExecsnoopBase_length e)
  · have hdrop : (serializeExecsnoopRecord e).drop 40 = padTo FULL_MAX_ARGS_ARR e.args :=
      List.drop_left' (serializeExecsnoopBase_length e)
    have hpt : padTo FULL_MAX_ARGS_ARR e.args =
        e.args ++ List.replicate (FULL_MAX_ARGS_ARR - e.args.length) 0 := by
      unfold padTo
      rw [List.take_of_length_le (by omega)]
    rw [hdrop, hpt, List.take_left' hl]
  · simp [ProcCollector.serializeProcessRecord, encU32_length, encU64_length, fix16_length]
  · have hre : ProcCollector.serializeProcessRecord pe =
        (encU32 pe.pid ++ (encU32 pe.ppid ++ encU32 pe.uid)) ++
          (encU32 pe.gid ++ (fix16 pe.comm ++ (encU64 pe.timestamp ++
            (encU32 pe.exit_code ++ ([pe.event_type % 256] ++ [0, 0, 0]))))) := by
      simp [ProcCollector.serializeProcessRecord, List.append_assoc]
    rw [hre, List.drop_left' (by simp [encU32_length]),
      List.take_left' (encU32_length pe.gid)]
  · have hre : ProcCollector.serializeProcessRecord pe =
        (encU32 pe.pid ++ (encU32 pe.ppid ++ (encU32 pe.uid ++
          (encU32 pe.gid ++ fix16 pe.comm)))) ++
          (encU64 pe.timestamp ++ (encU32 pe.exit_code ++
            ([pe.event_type % 256] ++ [0, 0, 0]))) := by
      simp [ProcCollector.serializeProcessRecord, List.append_assoc]
    rw [hre, List.drop_left' (by simp [encU32_length, fix16_length]),
      List.take_left' (encU64_length pe.timestamp)]

/-- C8 witness: the amended format at a concrete execve event carrying the
trailer "/bin/ls\0-l\0" (11 bytes) and a concrete lifecycle record. -/
theorem C8_two_wire_formats_witness :
    (serializeExecsnoopRecord ⟨100, 1, 0, 0, 2, 11, [108, 115],
        [47, 98, 105, 110, 47, 108, 115, 0, 45, 108, 0]⟩).take 40 =
      serializeExecsnoopBase ⟨100, 1, 0, 0, 2, 11, [108, 115],
        [47, 98, 105, 110, 47, 108, 115, 0, 45, 108, 0]⟩ ∧
    ((serializeExecsnoopRecord ⟨100, 1, 0, 0, 2, 11, [108, 115],
        [47, 98, 105, 110, 47, 108, 115, 0, 45, 108, 0]⟩).drop 40).take 11 =
      [47, 98, 105, 110, 47, 108, 115, 0, 45, 108, 0] ∧
    (ProcCollector.serializeProcessRecord ⟨7, 1, 0, 0, [97], 123, 0, 2⟩).length = 48 := by
  obtain ⟨h1, h2, h3, h4, h5, h6, h7⟩ := C8_two_wire_formats
    ⟨100, 1, 0, 0, 2, 11, [108, 115], [47, 98, 105, 110, 47, 108, 115, 0, 45, 108, 0]⟩
    ⟨7, 1, 0, 0, [97], 123, 0, 2⟩ rfl (by decide)
  exact ⟨h3, h4, h5⟩

end Execsnoop
